import Mathlib

/-!
Verification of the undo/redo history manager (`useUndoRedo`) of the
Email-Architect-Suite repository.

The source is a React hook over a generic value type `T`.  We embed it
shallowly:

* `HistoryState T` mirrors the `{ past, present, future }` record, and
  `Manager T` additionally carries the `lastSavedState` ref.
* `isEqual a b` in the source is `JSON.stringify(a) === JSON.stringify(b)`;
  we model the serialization as an abstract function `ser : T → String`
  and compare the strings.
* JavaScript truthiness of a `T` value (used by the guard
  `if (lastPast && isEqual(lastPast, nextValue))`) is modelled by an
  abstract function `truthy : T → Bool`.  When `past` is empty,
  `h.past[h.past.length - 1]` is `undefined`, which is falsy; this is the
  `none` case of `dedupGuard`.
* `setState` accepts either a literal value or an updater function,
  mirrored by the `SetArg` sum.

For concrete counterexamples we instantiate `T := Int` with
`ser := toString` and JavaScript number truthiness `n ≠ 0`.
-/

namespace EmailArchitect

/-- Argument accepted by `setState`: a literal replacement value or an
updater function applied to the current `present`. -/
inductive SetArg (T : Type) where
  | lit (v : T)
  | upd (f : T → T)

/-- The `HistoryState<T>` record of the source. -/
structure HistoryState (T : Type) where
  past : List T
  present : T
  future : List T
deriving DecidableEq

/-- The full manager state: the history plus the `lastSavedState` ref. -/
structure Manager (T : Type) where
  history : HistoryState T
  saved : T
deriving DecidableEq

section Model

variable {T : Type} (ser : T → String) (truthy : T → Bool)

/-- The source's `isEqual(a, b)`: `JSON.stringify(a) === JSON.stringify(b)`. -/
def isEqual (a b : T) : Bool := ser a == ser b

/-- Compute `nextValue` from the argument of `setState`:
`typeof value === "function" ? value(h.present) : value`. -/
def computeNext (value : SetArg T) (present : T) : T :=
  match value with
  | .lit v => v
  | .upd f => f present

/-- The guard `lastPast && isEqual(lastPast, nextValue)` of `setState`,
where `lastPast = h.past[h.past.length - 1]` is `undefined` (falsy) when
`past` is empty. -/
def dedupGuard (lastPast? : Option T) (nextValue : T) : Bool :=
  match lastPast? with
  | none => false
  | some lastPast => truthy lastPast && isEqual ser lastPast nextValue

/-- The source's `setState`.  Computes `nextValue`; if it equals
`present`, returns the state unchanged (the source returns the same object
`h`); else if the truthiness-guarded dedup check fires, only `present` is
replaced; else `present` is appended to `past`, `present` becomes
`nextValue` and `future` is cleared. -/
def setState (value : SetArg T) (h : HistoryState T) : HistoryState T :=
  let nextValue := computeNext value h.present
  if isEqual ser nextValue h.present then
    h
  else if dedupGuard ser truthy h.past.getLast? nextValue then
    { h with present := nextValue }
  else
    { past := h.past ++ [h.present], present := nextValue, future := [] }

/-- The source's `undo`: no-op when `past` is empty; otherwise pop the
last element of `past` into `present` and push the old `present` onto the
front of `future`. -/
def undo (h : HistoryState T) : HistoryState T :=
  match h.past.getLast? with
  | none => h
  | some previous =>
      { past := h.past.dropLast, present := previous,
        future := h.present :: h.future }

/-- The source's `redo`: no-op when `future` is empty; otherwise pop
the first element of `future` into `present` and append the old `present`
to `past`. -/
def redo (h : HistoryState T) : HistoryState T :=
  match h.future with
  | [] => h
  | next :: newFuture =>
      { past := h.past ++ [h.present], present := next, future := newFuture }

/-- Construction of the hook: `past = []`, `present = initialState`,
`future = []`, and `lastSavedState = initialState`. -/
def construct (initialState : T) : Manager T :=
  ⟨⟨[], initialState, []⟩, initialState⟩

/-- Function `setState` lifted to the manager (it does not touch `lastSavedState`). -/
def mSetState (value : SetArg T) (m : Manager T) : Manager T :=
  { m with history := setState ser truthy value m.history }

/-- Function `undo` lifted to the manager. -/
def mUndo (m : Manager T) : Manager T :=
  { m with history := undo m.history }

/-- Function `redo` lifted to the manager. -/
def mRedo (m : Manager T) : Manager T :=
  { m with history := redo m.history }

/-- The source's `reset`: replaces the whole history record and sets
`lastSavedState.current = newState`. -/
def reset (newState : T) (_m : Manager T) : Manager T :=
  ⟨⟨[], newState, []⟩, newState⟩

/-- The source's `markAsSaved`: `lastSavedState.current = history.present`. -/
def markAsSaved (m : Manager T) : Manager T :=
  { m with saved := m.history.present }

/-- Derived query `canUndo = history.past.length > 0`. -/
def canUndo (m : Manager T) : Bool := m.history.past.length > 0

/-- Derived query `canRedo = history.future.length > 0`. -/
def canRedo (m : Manager T) : Bool := m.history.future.length > 0

/-- Derived query `hasUnsavedChanges = !isEqual(history.present, lastSavedState.current)`. -/
def hasUnsavedChanges (m : Manager T) : Bool :=
  !(isEqual ser m.history.present m.saved)

/-- One of the four mutating operations, for reachability statements. -/
inductive Op (T : Type) where
  | set (value : SetArg T)
  | undo
  | redo
  | reset (newState : T)

/-- Apply one operation to the manager. -/
def applyOp (op : Op T) (m : Manager T) : Manager T :=
  match op with
  | .set v => mSetState ser truthy v m
  | .undo => mUndo m
  | .redo => mRedo m
  | .reset x => reset x m

/-- Run a list of operations from a freshly constructed manager. -/
def runOps (init : T) (ops : List (Op T)) : Manager T :=
  ops.foldl (fun m op => applyOp ser truthy op m) (construct init)

/-- Run a list of `setState` calls from a freshly constructed manager. -/
def runSets (init : T) (args : List (SetArg T)) : Manager T :=
  args.foldl (fun m v => mSetState ser truthy v m) (construct init)

/-- The full timeline of a history state: `past`, then `present`, then
`future`, in chronological order. -/
def chain (h : HistoryState T) : List T := h.past ++ h.present :: h.future

/-- Decides that no two adjacent elements of a list are `isEqual`. -/
def adjFreeB : List T → Bool
  | [] => true
  | [_] => true
  | a :: b :: rest => !isEqual ser a b && adjFreeB (b :: rest)

/-- Decides whether applying `op` to `m` takes the deduplication branch of
`setState` (the branch guarded by `lastPast && isEqual(lastPast, nextValue)`). -/
def opDedupsB (op : Op T) (m : Manager T) : Bool :=
  match op with
  | .set v =>
      !isEqual ser (computeNext v m.history.present) m.history.present &&
        dedupGuard ser truthy m.history.past.getLast?
          (computeNext v m.history.present)
  | _ => false

/-- Decides whether a run of operations starting from `m` never takes the
deduplication branch of `setState`. -/
def noDedupRunB (m : Manager T) : List (Op T) → Bool
  | [] => true
  | op :: rest =>
      !opDedupsB ser truthy op m &&
        noDedupRunB (applyOp ser truthy op m) rest

end Model

/-- Serialization of `Int` values: on numbers `JSON.stringify` produces the
decimal representation. -/
def intSer (n : Int) : String := toString n

/-- JavaScript truthiness of a number: every number other than `0` (and
`NaN`, which `Int` does not contain) is truthy. -/
def intTruthy (n : Int) : Bool := n != 0

section Helpers

variable {T : Type} (ser : T → String) (truthy : T → Bool)

/-- Structural equality is symmetric (string equality is). -/
theorem isEqual_comm (a b : T) : isEqual ser a b = isEqual ser b a := by
  by_cases h : ser a = ser b
  · simp [isEqual, h]
  · simp [isEqual, beq_false_of_ne h, beq_false_of_ne (Ne.symm h)]

/-- Removing the last element and re-consing it in front of a tail is the
same as appending the tail to the whole list. -/
theorem dropLast_append_cons_of_getLast : ∀ (l : List T) (p : T)
    (rest : List T), l.getLast? = some p → l.dropLast ++ p :: rest = l ++ rest
  | [], _, _, h => by simp at h
  | [a], p, rest, h => by
      simp [List.getLast?_singleton] at h
      subst h; simp
  | a :: b :: l', p, rest, h => by
      rw [List.getLast?_cons_cons] at h
      have ih := dropLast_append_cons_of_getLast (b :: l') p rest h
      simp only [List.dropLast_cons₂, List.cons_append, ih]

/-- Splitting the adjacent-duplicate-freeness of a list at a middle element. -/
theorem adjFreeB_append_cons (y : T) (zs : List T) :
    ∀ xs : List T, adjFreeB ser (xs ++ y :: zs)
      = (adjFreeB ser (xs ++ [y]) && adjFreeB ser (y :: zs))
  | [] => by simp [adjFreeB]
  | [a] => by simp [adjFreeB, Bool.and_assoc]
  | a :: b :: xs' => by
      have ih := adjFreeB_append_cons y zs (b :: xs')
      simp only [List.cons_append] at ih ⊢
      rw [adjFreeB, adjFreeB, ih, Bool.and_assoc]

/-- The operation `undo` permutes the triple but keeps the timeline. -/
theorem chain_undo (h : HistoryState T) : chain (undo h) = chain h := by
  rcases hl : h.past.getLast? with _ | p
  · simp [undo, hl]
  · simp only [undo, hl, chain]
    exact dropLast_append_cons_of_getLast h.past p _ hl

/-- The operation `redo` permutes the triple but keeps the timeline. -/
theorem chain_redo (h : HistoryState T) : chain (redo h) = chain h := by
  rcases hf : h.future with _ | ⟨nx, rest⟩
  · simp [redo, hf]
  · simp [redo, hf, chain]

/-- A `setState` call that does not take the deduplication branch preserves
adjacent-duplicate-freeness of the timeline. -/
theorem setState_adjFree (v : SetArg T) (h : HistoryState T)
    (hinv : adjFreeB ser (chain h) = true)
    (hnd : (!isEqual ser (computeNext v h.present) h.present &&
        dedupGuard ser truthy h.past.getLast?
          (computeNext v h.present)) = false) :
    adjFreeB ser (chain (setState ser truthy v h)) = true := by
  by_cases he : isEqual ser (computeNext v h.present) h.present = true
  · simpa [setState, he] using hinv
  · have he' : isEqual ser (computeNext v h.present) h.present = false :=
      Bool.eq_false_iff.mpr he
    have hg : dedupGuard ser truthy h.past.getLast?
        (computeNext v h.present) = false := by
      simpa [he'] using hnd
    have hsplit := adjFreeB_append_cons ser h.present h.future h.past
    rw [chain, hsplit, Bool.and_eq_true] at hinv
    simp only [setState, he', hg, if_false, Bool.false_eq_true, chain]
    rw [List.append_assoc, List.singleton_append,
      adjFreeB_append_cons ser h.present [computeNext v h.present] h.past,
      Bool.and_eq_true]
    refine ⟨hinv.1, ?_⟩
    have hps : isEqual ser h.present (computeNext v h.present) = false := by
      rw [isEqual_comm]; exact he'
    simp [adjFreeB, hps]

/-- Every operation that does not take the deduplication branch preserves
adjacent-duplicate-freeness of the timeline. -/
theorem applyOp_adjFree (op : Op T) (m : Manager T)
    (hinv : adjFreeB ser (chain m.history) = true)
    (hnd : opDedupsB ser truthy op m = false) :
    adjFreeB ser (chain (applyOp ser truthy op m).history) = true := by
  cases op with
  | set v =>
      exact setState_adjFree ser truthy v m.history hinv
        (by simpa [opDedupsB] using hnd)
  | undo =>
      show adjFreeB ser (chain (undo m.history)) = true
      rw [chain_undo]; exact hinv
  | redo =>
      show adjFreeB ser (chain (redo m.history)) = true
      rw [chain_redo]; exact hinv
  | reset x => simp [applyOp, reset, chain, adjFreeB]

/-- Folding a run of operations that never deduplicates preserves
adjacent-duplicate-freeness of the timeline. -/
theorem noDedupRun_adjFree : ∀ (ops : List (Op T)) (m : Manager T),
    adjFreeB ser (chain m.history) = true →
    noDedupRunB ser truthy m ops = true →
    adjFreeB ser
      (chain ((ops.foldl (fun m op => applyOp ser truthy op m) m)).history)
      = true
  | [], _, hinv, _ => hinv
  | op :: rest, m, hinv, hnd => by
      rw [List.foldl_cons]
      have h1 : opDedupsB ser truthy op m = false ∧
          noDedupRunB ser truthy (applyOp ser truthy op m) rest = true := by
        simpa [noDedupRunB, Bool.and_eq_true] using hnd
      exact noDedupRun_adjFree rest _
        (applyOp_adjFree ser truthy op m hinv h1.1) h1.2

/-- A `setState` call never turns an empty `future` non-empty. -/
theorem setState_future_eq_nil (v : SetArg T) (h : HistoryState T)
    (hf : h.future = []) : (setState ser truthy v h).future = [] := by
  simp only [setState]
  split
  · exact hf
  · split
    · exact hf
    · rfl

/-- Any run of `setState` calls from a state with empty `future` keeps
`future` empty. -/
theorem foldl_sets_future_eq_nil : ∀ (args : List (SetArg T)) (m : Manager T),
    m.history.future = [] →
    ((args.foldl (fun m v => mSetState ser truthy v m) m)).history.future = []
  | [], _, hf => hf
  | v :: rest, m, hf => by
      rw [List.foldl_cons]
      exact foldl_sets_future_eq_nil rest _
        (setState_future_eq_nil ser truthy v m.history hf)

/-- On a state with empty `future`, `redo` after `undo` restores the state. -/
theorem redo_undo_of_future_eq_nil (h : HistoryState T) (hf : h.future = []) :
    redo (undo h) = h := by
  obtain ⟨past, present, future⟩ := h
  simp only at hf
  subst hf
  rcases hl : past.getLast? with _ | p
  · simp [undo, hl, redo]
  · simp only [undo, hl, redo, HistoryState.mk.injEq, and_true, true_and]
    have := dropLast_append_cons_of_getLast past p [] hl
    simpa using this

end Helpers

section Claims

variable {T : Type} (ser : T → String) (truthy : T → Bool)

/-- C1, counterexample: on `T = Int`, from the state
`past = [0], present = 1, future = []`, the call `set(0)` computes
`nextValue = 0`, which differs from `present` and is structurally equal to
the most recent `past` entry `0`; yet, because `0` is falsy, `setState`
pushes a new frame `past = [0, 1]` instead of leaving `past` unchanged. -/
theorem dedup_skips_falsy_lastPast_cex :
    isEqual intSer (computeNext (SetArg.lit 0) (1 : Int)) 1 = false ∧
    (⟨[0], 1, []⟩ : HistoryState Int).past.getLast? = some 0 ∧
    isEqual intSer 0 (computeNext (SetArg.lit 0) (1 : Int)) = true ∧
    setState intSer intTruthy (SetArg.lit 0) ⟨[0], 1, []⟩ = ⟨[0, 1], 0, []⟩ ∧
    setState intSer intTruthy (SetArg.lit 0) ⟨[0], 1, []⟩ ≠ ⟨[0], 0, []⟩ := by
  decide

/-- C1, amended: for every history state and every `set` call whose computed
`nextValue` is not structurally equal to `present` but is structurally equal
to the most recent entry of `past`, provided that entry is truthy, `setState`
replaces `present` with `nextValue` and leaves `past` and `future` exactly
unchanged (no new frame is pushed and `future` is not cleared). -/
theorem set_dedup_truthy_lastPast (v : SetArg T) (h : HistoryState T) (lp : T)
    (hl : h.past.getLast? = some lp) (ht : truthy lp = true)
    (he : isEqual ser (computeNext v h.present) h.present = false)
    (hlp : isEqual ser lp (computeNext v h.present) = true) :
    setState ser truthy v h = { h with present := computeNext v h.present } := by
  have hg : dedupGuard ser truthy h.past.getLast?
      (computeNext v h.present) = true := by
    simp [dedupGuard, hl, ht, hlp]
  simp [setState, he, hg]

/-- Witness for C1 (amended) at `past = [2], present = 1, future = []`,
`set(2)` with the truthy most recent past entry `2`. -/
theorem set_dedup_truthy_lastPast_witness :
    (⟨[2], 1, []⟩ : HistoryState Int).past.getLast? = some 2 ∧
    intTruthy 2 = true ∧
    isEqual intSer (computeNext (SetArg.lit 2) (1 : Int)) 1 = false ∧
    isEqual intSer 2 (computeNext (SetArg.lit 2) (1 : Int)) = true ∧
    setState intSer intTruthy (SetArg.lit 2) ⟨[2], 1, []⟩ = ⟨[2], 2, []⟩ :=
  ⟨by decide, by decide, by decide, by decide,
    set_dedup_truthy_lastPast intSer intTruthy (SetArg.lit 2) ⟨[2], 1, []⟩ 2
      (by decide) (by decide) (by decide) (by decide)⟩

/-- C2, counterexample: the state reached from `construct(1)` by
`set(2); set(1)` has `past = [1]` and `present = 1`: the element of `past`
adjacent to `present` is structurally equal to `present`, so the claimed
invariant fails on a reachable state (the second `set` takes the
deduplication branch). -/
theorem adjacent_invariant_cex :
    runOps intSer intTruthy 1 [Op.set (SetArg.lit 2), Op.set (SetArg.lit 1)]
      = ⟨⟨[1], 1, []⟩, 1⟩ ∧
    isEqual intSer 1 1 = true ∧
    adjFreeB intSer
      (chain (runOps intSer intTruthy 1
        [Op.set (SetArg.lit 2), Op.set (SetArg.lit 1)]).history) = false := by
  decide

/-- C2, amended: for every state reachable from construction by a sequence
of `set`, `undo`, `redo`, and `reset` operations in which no `set` call takes
the deduplication branch, the timeline `past ++ [present] ++ future` contains
no two adjacent structurally equal elements — in particular `past` and
`future` contain no adjacent duplicates and the entries adjacent to `present`
differ from it.  (A `set` call that takes the deduplication branch can break
the invariant, as the counterexample shows.) -/
theorem noDedup_reachable_adjacentFree (init : T) (ops : List (Op T))
    (hnd : noDedupRunB ser truthy (construct init) ops = true) :
    adjFreeB ser (chain (runOps ser truthy init ops).history) = true := by
  have hbase : adjFreeB ser (chain (construct (T := T) init).history) = true := by
    simp [construct, chain, adjFreeB]
  exact noDedupRun_adjFree ser truthy ops (construct init) hbase hnd

/-- Witness for C2 (amended) on the run `set(1); undo; redo` from
`construct(0)`, which never deduplicates. -/
theorem noDedup_reachable_adjacentFree_witness :
    noDedupRunB intSer intTruthy (construct 0)
      [Op.set (SetArg.lit 1), Op.undo, Op.redo] = true ∧
    adjFreeB intSer
      (chain (runOps intSer intTruthy 0
        [Op.set (SetArg.lit 1), Op.undo, Op.redo]).history) = true :=
  ⟨by decide,
    noDedup_reachable_adjacentFree intSer intTruthy 0
      [Op.set (SetArg.lit 1), Op.undo, Op.redo] (by decide)⟩

/-- C3, counterexample: the state `past = [5], present = 1, future = [2]`
(reached from `construct(5)` by `set(1); set(2); undo`) has non-empty
`future`; the call `set(5)` computes `newValue = 5 ≠ present`, yet the
deduplication branch fires (the truthy most recent past entry `5` equals
`newValue`) and `future` is kept as `[2]`, not cleared, and `present` is not
pushed onto `past`. -/
theorem set_keeps_future_on_dedup_cex :
    runOps intSer intTruthy 5
      [Op.set (SetArg.lit 1), Op.set (SetArg.lit 2), Op.undo]
      = ⟨⟨[5], 1, [2]⟩, 5⟩ ∧
    (⟨[5], 1, [2]⟩ : HistoryState Int).future ≠ [] ∧
    isEqual intSer (computeNext (SetArg.lit 5) (1 : Int)) 1 = false ∧
    setState intSer intTruthy (SetArg.lit 5) ⟨[5], 1, [2]⟩ = ⟨[5], 5, [2]⟩ ∧
    (setState intSer intTruthy (SetArg.lit 5) ⟨[5], 1, [2]⟩).future ≠ [] := by
  decide

/-- C3, amended: for every history state with non-empty `future` and every
`set` call whose computed `newValue` is not structurally equal to `present`,
provided the deduplication guard does not fire (the most recent `past` entry
is absent, falsy, or not structurally equal to `newValue`), after the call
`future` is the empty list, `present` is appended to the end of `past`, and
`present` becomes `newValue`. -/
theorem set_clears_future_of_no_dedup (v : SetArg T) (h : HistoryState T)
    (_hf : h.future ≠ [])
    (he : isEqual ser (computeNext v h.present) h.present = false)
    (hg : dedupGuard ser truthy h.past.getLast?
      (computeNext v h.present) = false) :
    setState ser truthy v h
      = ⟨h.past ++ [h.present], computeNext v h.present, []⟩ := by
  simp [setState, he, hg]

/-- Witness for C3 (amended) at `past = [3], present = 1, future = [2]`,
`set(4)`. -/
theorem set_clears_future_of_no_dedup_witness :
    (⟨[3], 1, [2]⟩ : HistoryState Int).future ≠ [] ∧
    isEqual intSer (computeNext (SetArg.lit 4) (1 : Int)) 1 = false ∧
    dedupGuard intSer intTruthy
      (⟨[3], 1, [2]⟩ : HistoryState Int).past.getLast?
      (computeNext (SetArg.lit 4) (1 : Int)) = false ∧
    setState intSer intTruthy (SetArg.lit 4) ⟨[3], 1, [2]⟩
      = ⟨[3, 1], 4, []⟩ :=
  ⟨by decide, by decide, by decide,
    set_clears_future_of_no_dedup intSer intTruthy (SetArg.lit 4)
      ⟨[3], 1, [2]⟩ (by decide) (by decide) (by decide)⟩

/-- C4: for every state reachable by applying `set` any number of times from
a freshly constructed manager, performing `undo` and then `redo` yields a
manager whose `past`, `present`, `future` (and saved marker) are all exactly
equal to their values before the pair of calls. -/
theorem undo_redo_inverse_after_sets (init : T) (args : List (SetArg T)) :
    mRedo (mUndo (runSets ser truthy init args))
      = runSets ser truthy init args := by
  have hf : (runSets ser truthy init args).history.future = [] :=
    foldl_sets_future_eq_nil ser truthy args (construct init) rfl
  show ({ runSets ser truthy init args with
      history := redo (undo (runSets ser truthy init args).history) }
      : Manager T) = runSets ser truthy init args
  rw [redo_undo_of_future_eq_nil _ hf]

/-- C5: starting from `construct(0)`, the sequence
`set(1); set(2); undo; undo; redo; set(5)` passes through exactly the six
intermediate states listed in the specification. -/
theorem end_to_end_scenario :
    runOps intSer intTruthy 0 [Op.set (SetArg.lit 1)]
      = ⟨⟨[0], 1, []⟩, 0⟩ ∧
    runOps intSer intTruthy 0 [Op.set (SetArg.lit 1), Op.set (SetArg.lit 2)]
      = ⟨⟨[0, 1], 2, []⟩, 0⟩ ∧
    runOps intSer intTruthy 0
      [Op.set (SetArg.lit 1), Op.set (SetArg.lit 2), Op.undo]
      = ⟨⟨[0], 1, [2]⟩, 0⟩ ∧
    runOps intSer intTruthy 0
      [Op.set (SetArg.lit 1), Op.set (SetArg.lit 2), Op.undo, Op.undo]
      = ⟨⟨[], 0, [1, 2]⟩, 0⟩ ∧
    runOps intSer intTruthy 0
      [Op.set (SetArg.lit 1), Op.set (SetArg.lit 2), Op.undo, Op.undo,
        Op.redo]
      = ⟨⟨[0], 1, [2]⟩, 0⟩ ∧
    runOps intSer intTruthy 0
      [Op.set (SetArg.lit 1), Op.set (SetArg.lit 2), Op.undo, Op.undo,
        Op.redo, Op.set (SetArg.lit 5)]
      = ⟨⟨[0, 1], 5, []⟩, 0⟩ := by
  decide

/-- C6: a `set` call whose computed `nextValue` is structurally equal to
`present` leaves the history state entirely unchanged — the source returns
the very object `h` it received, which this embedding renders as the result
being the input state itself. -/
theorem set_equal_present_noop (v : SetArg T) (h : HistoryState T)
    (he : isEqual ser (computeNext v h.present) h.present = true) :
    setState ser truthy v h = h := by
  simp [setState, he]

/-- Witness for C6 at `past = [], present = 1, future = []`, `set(1)`. -/
theorem set_equal_present_noop_witness :
    isEqual intSer (computeNext (SetArg.lit 1) (1 : Int)) 1 = true ∧
    setState intSer intTruthy (SetArg.lit 1) ⟨[], 1, []⟩ = ⟨[], 1, []⟩ :=
  ⟨by decide,
    set_equal_present_noop intSer intTruthy (SetArg.lit 1) ⟨[], 1, []⟩
      (by decide)⟩

/-- C7: `undo` on a state with empty `past` leaves the state unchanged, and
`redo` on a state with empty `future` leaves the state unchanged; both are
total functions, so neither boundary call signals an error. -/
theorem undo_redo_boundary_noop (h : HistoryState T) :
    (h.past = [] → undo h = h) ∧ (h.future = [] → redo h = h) := by
  constructor
  · intro hp; simp [undo, hp]
  · intro hf; simp [redo, hf]

/-- Witness for C7 on the freshly constructed state
`past = [], present = 0, future = []`. -/
theorem undo_redo_boundary_noop_witness :
    undo (⟨[], 0, []⟩ : HistoryState Int) = ⟨[], 0, []⟩ ∧
    redo (⟨[], 0, []⟩ : HistoryState Int) = ⟨[], 0, []⟩ :=
  ⟨(undo_redo_boundary_noop ⟨[], 0, []⟩).1 rfl,
    (undo_redo_boundary_noop ⟨[], 0, []⟩).2 rfl⟩

/-- C8: for every prior manager state and every value `X`, `reset X` yields
`past = []`, `present = X`, `future = []`, sets the saved marker to `X`, and
immediately afterwards `hasUnsavedChanges` is `false`. -/
theorem reset_state_and_saved (m : Manager T) (X : T) :
    (reset X m).history = ⟨[], X, []⟩ ∧ (reset X m).saved = X ∧
      hasUnsavedChanges ser (reset X m) = false := by
  refine ⟨rfl, rfl, ?_⟩
  simp [hasUnsavedChanges, reset, isEqual]

/-- C9: the saved marker is left unchanged by `set`, `undo`, and `redo`, and
`markAsSaved` sets it to the current `present` while leaving `past`,
`present`, and `future` unchanged. -/
theorem saved_marker_frame (m : Manager T) (v : SetArg T) :
    (mSetState ser truthy v m).saved = m.saved ∧
      (mUndo m).saved = m.saved ∧
      (mRedo m).saved = m.saved ∧
      (markAsSaved m).saved = m.history.present ∧
      (markAsSaved m).history = m.history :=
  ⟨rfl, rfl, rfl, rfl, rfl⟩

/-- C10: for every history state whose most recent `past` entry is falsy and
every `set` call whose computed `nextValue` differs structurally from
`present`, `setState` never takes the deduplication branch — regardless of
whether that entry equals `nextValue` — and instead appends `present` to
`past`, sets `present` to `nextValue`, and clears `future`, because the
guard tests the entry's truthiness before testing equality. -/
theorem set_falsy_lastPast_pushes (v : SetArg T) (h : HistoryState T) (lp : T)
    (hl : h.past.getLast? = some lp) (ht : truthy lp = false)
    (he : isEqual ser (computeNext v h.present) h.present = false) :
    setState ser truthy v h
      = ⟨h.past ++ [h.present], computeNext v h.present, []⟩ := by
  have hg : dedupGuard ser truthy h.past.getLast?
      (computeNext v h.present) = false := by
    simp [dedupGuard, hl, ht]
  simp [setState, he, hg]

/-- Witness for C10 at `past = [0], present = 1, future = []`, `set(0)`,
where the most recent past entry `0` is falsy and equal to `nextValue`. -/
theorem set_falsy_lastPast_pushes_witness :
    (⟨[0], 1, []⟩ : HistoryState Int).past.getLast? = some 0 ∧
    intTruthy 0 = false ∧
    isEqual intSer (computeNext (SetArg.lit 0) (1 : Int)) 1 = false ∧
    setState intSer intTruthy (SetArg.lit 0) ⟨[0], 1, []⟩
      = ⟨[0, 1], 0, []⟩ :=
  ⟨by decide, by decide, by decide,
    set_falsy_lastPast_pushes intSer intTruthy (SetArg.lit 0) ⟨[0], 1, []⟩ 0
      (by decide) (by decide) (by decide)⟩

end Claims

end EmailArchitect
